import Mathlib

/-!
# A verification development for the DI-cognome token bond graph engine

This file gives a shallow embedding of the engine's data model and
operations.  The repository ships the behavioural test-suite of the engine
(`work/tests/`) together with two collaborator modules
(`contrib/haven/entity_registry.py`, `work/hcp/cognition/`); the engine
modules themselves (`hcp.core`, `hcp.atomizer`, `hcp.assembly`,
`hcp.physics`, `hcp.cognition.context`) are not part of the visible tree,
so their definitions below are modelled from the specification and are
marked as such in their doc comments.  Scalar quantities that the original
code holds in floating point are modelled as rationals (`Rat`); machine
integers are modelled as `Nat`.
-/

/-! ## Tokens

Modelled from the spec: `hcp.core.token_id.TokenID` is not under `src/`.
A token is a value from one of two disjoint spaces: byte tokens (raw byte
values 0-255) and abstract (NSM) tokens in a separate namespace.  Equality
is by (space, value). -/

inductive TokenID where
  | byte (val : Nat)
  | nsm (val : Nat)
deriving DecidableEq, Repr

/-- The raw value carried by a token. -/
def TokenID.value : TokenID → Nat
  | .byte n => n
  | .nsm n => n

/-- `true` exactly on tokens of the byte space. -/
def TokenID.is_byte : TokenID → Bool
  | .byte _ => true
  | .nsm _ => false

/-- Error taxonomy of the engine, from spec section 7. -/
inductive HcpError where
  | outOfRange
  | malformedIdentifier
  | nonByteToken
  | alreadyResolved
deriving DecidableEq, Repr

/-! ## The bond graph (`PairBondMap`)

Modelled from the spec: `hcp.core.pair_bond.PairBondMap` is not under
`src/`.  The graph owns a mapping from ordered token pairs to occurrence
counts (kept here as an association list) and an ordered sequence store
holding the token sequences used to build the graph, verbatim. -/

structure PairBondMap where
  bonds : List ((TokenID × TokenID) × Nat)
  sequences : List (List TokenID)
deriving DecidableEq, Repr

/-- The empty bond graph. -/
def PairBondMap.empty : PairBondMap := ⟨[], []⟩

/-- Increment the count stored for key `p` in an association list,
creating the entry (with count 1) if absent. -/
def bumpPair (p : TokenID × TokenID) : List ((TokenID × TokenID) × Nat) →
    List ((TokenID × TokenID) × Nat)
  | [] => [(p, 1)]
  | (q, c) :: rest => if q = p then (q, c + 1) :: rest else (q, c) :: bumpPair p rest

/-- `add_bond`: increments the `(left, right)` count by 1, creating the
pair if absent (spec section 4.3). -/
def add_bond (g : PairBondMap) (left right : TokenID) : PairBondMap :=
  { g with bonds := bumpPair (left, right) g.bonds }

/-- `add_sequence`: records the token list in the sequence store without
altering counts (spec section 4.3). -/
def add_sequence (g : PairBondMap) (tokens : List TokenID) : PairBondMap :=
  { g with sequences := g.sequences ++ [tokens] }

/-- Total recorded count for the ordered pair `(left, right)`: the sum of
the counts of all entries with that key (a single entry in any graph built
through the API). -/
def get_bond_count (g : PairBondMap) (left right : TokenID) : Nat :=
  (g.bonds.filter (fun e => e.1 = (left, right))).foldl (fun acc e => acc + e.2) 0

/-- `total_bonds`: the sum of all occurrence counts (spec section 3). -/
def total_bonds (g : PairBondMap) : Nat :=
  g.bonds.foldl (fun acc e => acc + e.2) 0

/-- `unique_bonds`: the number of distinct pairs with count > 0
(spec section 3). -/
def unique_bonds (g : PairBondMap) : Nat :=
  (g.bonds.filter (fun e => 0 < e.2)).length

/-- Add `c` occurrences of key `p` to an association list, summing with an
existing entry for `p` when there is one. -/
def addPairCount (p : TokenID × TokenID) (c : Nat) :
    List ((TokenID × TokenID) × Nat) → List ((TokenID × TokenID) × Nat)
  | [] => [(p, c)]
  | (q, d) :: rest => if q = p then (q, d + c) :: rest else (q, d) :: addPairCount p c rest

/-- `merge`: combines two graphs, summing counts for shared pairs and
taking the union of the rest; the sequence stores are concatenated with
the graph being merged into first (spec sections 3 and 4.3). -/
def merge (g other : PairBondMap) : PairBondMap :=
  { bonds := other.bonds.foldl (fun acc e => addPairCount e.1 e.2 acc) g.bonds
    sequences := g.sequences ++ other.sequences }

/-- Derive one bond per consecutive token pair of a sequence
(spec section 4.3). -/
def derive_bonds (g : PairBondMap) (tokens : List TokenID) : PairBondMap :=
  (tokens.zip tokens.tail).foldl (fun acc p => add_bond acc p.1 p.2) g

/-! ## UTF-8 byte codec

Modelled from the spec: text input is encoded to its UTF-8 byte
representation before atomization (spec section 4.2), and string rendering
decodes bytes back, failing on invalid UTF-8 (spec section 4.4).  A text
is modelled as the list of its Unicode scalar values. -/

/-- A Unicode scalar value: any code point that is not a surrogate. -/
def ValidScalar (n : Nat) : Prop :=
  n < 0xD800 ∨ (0xE000 ≤ n ∧ n < 0x110000)

instance (n : Nat) : Decidable (ValidScalar n) := by
  unfold ValidScalar; exact inferInstance

/-- The UTF-8 encoding of one scalar value, as a list of byte values. -/
def utf8EncodeChar (n : Nat) : List Nat :=
  if n < 0x80 then [n]
  else if n < 0x800 then [0xC0 + n / 64, 0x80 + n % 64]
  else if n < 0x10000 then [0xE0 + n / 4096, 0x80 + n / 64 % 64, 0x80 + n % 64]
  else [0xF0 + n / 262144, 0x80 + n / 4096 % 64, 0x80 + n / 64 % 64, 0x80 + n % 64]

/-- UTF-8 encoding of a text (list of scalar values). -/
def utf8Encode : List Nat → List Nat
  | [] => []
  | n :: rest => utf8EncodeChar n ++ utf8Encode rest

/-- `true` on UTF-8 continuation bytes. -/
def isCont (b : Nat) : Bool := 0x80 ≤ b && b < 0xC0

/-- Scalar value of a two-byte UTF-8 sequence. -/
def utf8Val2 (b0 b1 : Nat) : Nat := (b0 - 192) * 64 + (b1 - 128)

/-- Validity of a two-byte UTF-8 sequence (rejects overlong forms). -/
def utf8Cond2 (b0 b1 : Nat) : Bool := 194 ≤ b0 && isCont b1

/-- Scalar value of a three-byte UTF-8 sequence. -/
def utf8Val3 (b0 b1 b2 : Nat) : Nat := (b0 - 224) * 4096 + (b1 - 128) * 64 + (b2 - 128)

/-- Validity of a three-byte UTF-8 sequence (rejects overlong forms and
surrogates). -/
def utf8Cond3 (b0 b1 b2 : Nat) : Bool :=
  isCont b1 && isCont b2 && decide (2048 ≤ utf8Val3 b0 b1 b2) &&
    !(decide (55296 ≤ utf8Val3 b0 b1 b2) && decide (utf8Val3 b0 b1 b2 < 57344))

/-- Scalar value of a four-byte UTF-8 sequence. -/
def utf8Val4 (b0 b1 b2 b3 : Nat) : Nat :=
  (b0 - 240) * 262144 + (b1 - 128) * 4096 + (b2 - 128) * 64 + (b3 - 128)

/-- Validity of a four-byte UTF-8 sequence (rejects overlong forms and
code points beyond U+10FFFF). -/
def utf8Cond4 (b0 b1 b2 b3 : Nat) : Bool :=
  decide (b0 < 245) && isCont b1 && isCont b2 && isCont b3 &&
    decide (65536 ≤ utf8Val4 b0 b1 b2 b3) && decide (utf8Val4 b0 b1 b2 b3 < 1114112)

/-- Decode one UTF-8 sequence from the head of a byte stream, returning
the scalar value and the remaining bytes; `none` on any invalid head
(lone continuation byte, truncated sequence, overlong form, surrogate,
out-of-range code point). -/
def utf8Step (bs : List Nat) : Option (Nat × List Nat) :=
  match bs with
  | [] => none
  | b0 :: rest =>
    if b0 < 128 then some (b0, rest)
    else if b0 < 224 then
      match rest with
      | b1 :: rest2 => if utf8Cond2 b0 b1 then some (utf8Val2 b0 b1, rest2) else none
      | [] => none
    else if b0 < 240 then
      match rest with
      | b1 :: b2 :: rest3 =>
        if utf8Cond3 b0 b1 b2 then some (utf8Val3 b0 b1 b2, rest3) else none
      | _ => none
    else
      match rest with
      | b1 :: b2 :: b3 :: rest4 =>
        if utf8Cond4 b0 b1 b2 b3 then some (utf8Val4 b0 b1 b2 b3, rest4) else none
      | _ => none

/-- Fuel-driven decoding loop; any fuel of at least the byte count
computes the full decoding, since every step consumes at least one
byte. -/
def utf8DecodeAux : Nat → List Nat → Option (List Nat)
  | _, [] => some []
  | 0, _ :: _ => none
  | fuel + 1, b :: rest =>
    match utf8Step (b :: rest) with
    | some p => (utf8DecodeAux fuel p.2).map (fun ns => p.1 :: ns)
    | none => none

/-- Validating UTF-8 decoder: returns the list of scalar values, or `none`
on any invalid byte stream. -/
def utf8Decode (bs : List Nat) : Option (List Nat) :=
  utf8DecodeAux bs.length bs

/-! ## Atomizer

Modelled from the spec: `hcp.atomizer.byte_atomizer` is not under `src/`.
`to_pbm` builds a graph from a byte stream: atomize, derive one bond per
consecutive atom pair, then record the full token list once in the
sequence store (spec sections 4.2 and 4.3). -/

/-- `ByteAtomizer.to_pbm`: bond graph of a raw byte stream. -/
def to_pbm (data : List Nat) : PairBondMap :=
  let tokens := data.map TokenID.byte
  add_sequence (derive_bonds PairBondMap.empty tokens) tokens

/-- `create_pbm_from_text`: UTF-8 encode the text, then build the graph
from the bytes.  A text is modelled as its list of Unicode scalar
values. -/
def create_pbm_from_text (text : List Nat) : PairBondMap :=
  to_pbm (utf8Encode text)

/-! ## Reconstructor

Modelled from the spec: `hcp.assembly.reconstructor` is not under `src/`.
Primary method "sequence": a single recorded sequence is returned
verbatim with zero ambiguity.  Otherwise order is rebuilt by walking
bonds from a token with no incoming edges, following the highest-count
outgoing edge, ties broken by token value (spec section 4.4; the
multiple-sequence case is not specified and is modelled by the same
traversal fallback). -/

structure ReconstructionResult where
  tokens : List TokenID
  success : Bool
  ambiguities : Nat
  method : String
deriving DecidableEq, Repr

/-- Neighbour → count map in the forward direction; absent tokens yield
an empty mapping (spec section 4.3). -/
def get_forward_bonds (g : PairBondMap) (t : TokenID) : List (TokenID × Nat) :=
  g.bonds.filterMap (fun e => if e.1.1 = t then some (e.1.2, e.2) else none)

/-- Neighbour → count map in the backward direction. -/
def get_backward_bonds (g : PairBondMap) (t : TokenID) : List (TokenID × Nat) :=
  g.bonds.filterMap (fun e => if e.1.2 = t then some (e.1.1, e.2) else none)

/-- Deterministic order on tokens used for tie-breaking: byte tokens
before abstract tokens, then by value. -/
def tokenLt (a b : TokenID) : Bool :=
  match a, b with
  | .byte m, .byte n => m < n
  | .byte _, .nsm _ => true
  | .nsm _, .byte _ => false
  | .nsm m, .nsm n => m < n

/-- The distinct tokens appearing in the graph's bonds, in first-seen
order. -/
def pbm_tokens (g : PairBondMap) : List TokenID :=
  g.bonds.foldl
    (fun acc e =>
      let acc1 := if e.1.1 ∈ acc then acc else acc ++ [e.1.1]
      if e.1.2 ∈ acc1 then acc1 else acc1 ++ [e.1.2])
    []

/-- Highest-count entry of a neighbour list, ties broken by `tokenLt`;
the boolean reports whether a tie forced a non-unique choice. -/
def pickBest : List (TokenID × Nat) → Option (TokenID × Nat × Bool)
  | [] => none
  | x :: rest =>
    match pickBest rest with
    | none => some (x.1, x.2, false)
    | some (t, c, tie) =>
      if c < x.2 then some (x.1, x.2, false)
      else if x.2 = c then
        if tokenLt x.1 t then some (x.1, x.2, true) else some (t, c, true)
      else some (t, c, tie)

/-- Smallest token of a list under `tokenLt`. -/
def minTokenOf : List TokenID → Option TokenID
  | [] => none
  | t :: rest =>
    match minTokenOf rest with
    | none => some t
    | some u => if tokenLt t u then some t else some u

/-- One traversal walk: repeatedly follow the best outgoing edge,
counting ambiguous choices. -/
def walkBonds (g : PairBondMap) : Nat → TokenID → List TokenID → Nat →
    List TokenID × Nat
  | 0, _, acc, amb => (acc.reverse, amb)
  | fuel + 1, t, acc, amb =>
    match pickBest (get_forward_bonds g t) with
    | none => (acc.reverse, amb)
    | some (u, _, tie) =>
      walkBonds g fuel u (u :: acc) (amb + (if tie then 1 else 0))

/-- Graph-traversal fallback reconstruction (spec section 4.4). -/
def traversal_reconstruct (g : PairBondMap) : ReconstructionResult :=
  let ts := pbm_tokens g
  let starts := ts.filter (fun t => (get_backward_bonds g t).isEmpty)
  let cands := if starts.isEmpty then ts else starts
  match minTokenOf cands with
  | none => ⟨[], true, 0, "traversal"⟩
  | some s =>
    let startAmb := if cands.length ≤ 1 then 0 else 1
    let walked := walkBonds g (total_bonds g) s [s] startAmb
    ⟨walked.1, true, walked.2, "traversal"⟩

/-- `Reconstructor.reconstruct` (spec section 4.4). -/
def reconstruct (g : PairBondMap) : ReconstructionResult :=
  match g.sequences with
  | [s] => ⟨s, true, 0, "sequence"⟩
  | _ => traversal_reconstruct g

/-- `ReconstructionResult.to_bytes`: the concatenated byte values, or the
`NonByteToken` error if any token is abstract (spec section 4.4). -/
def tokens_to_bytes : List TokenID → Except HcpError (List Nat)
  | [] => .ok []
  | .byte n :: rest => (tokens_to_bytes rest).map (fun bs => n :: bs)
  | .nsm _ :: _ => .error .nonByteToken

/-- `pbm_to_bytes`: reconstruct and render as bytes. -/
def pbm_to_bytes (g : PairBondMap) : Except HcpError (List Nat) :=
  tokens_to_bytes (reconstruct g).tokens

/-- `pbm_to_string`: reconstruct, render as bytes and UTF-8 decode;
`none` on a non-byte token or invalid UTF-8 (spec section 4.4). -/
def pbm_to_string (g : PairBondMap) : Option (List Nat) :=
  match pbm_to_bytes g with
  | .ok bs => utf8Decode bs
  | .error _ => none

/-! ## Compound token identifiers (`contrib/haven/entity_registry.py`)

This part embeds code that is under `src/`: the fallback definitions of
`encode_pair`, `encode_token_id` and `decode_token_id` at
`entity_registry.py:39-46`. -/

/-- The fixed 50-symbol alphabet of `entity_registry.py:41` (the letters
`O` and `o` are skipped). -/
def ALPHABET : List Char :=
  "ABCDEFGHIJKLMNPQRSTUVWXYZabcdefghijklmnpqrstuvwxyz".toList

/-- `encode_pair(n)`: `ALPHABET[n // 50] + ALPHABET[n % 50]`
(`entity_registry.py:40-42`). -/
def encode_pair (n : Nat) : List Char :=
  [ALPHABET.getD (n / 50) 'A', ALPHABET.getD (n % 50) 'A']

/-- Join string parts with the `.` delimiter, as `".".flatten` does. -/
def joinDot : List (List Char) → List Char
  | [] => []
  | [s] => s
  | s :: rest => s ++ ('.' :: joinDot rest)

/-- Split on the `.` delimiter, as `s.split(".")` does (splitting the
empty string yields one empty part). -/
def splitDot : List Char → List (List Char)
  | [] => [[]]
  | c :: rest =>
    let r := splitDot rest
    if c = '.' then [] :: r
    else
      match r with
      | [] => [[c]]
      | g :: gs => (c :: g) :: gs

/-- The numeric value Python assigns to a digit character in `int(s, base)`:
`0`-`9`, then `a`-`z` and `A`-`Z` both valued 10-35. -/
def pyDigitVal (c : Char) : Option Nat :=
  if '0' ≤ c && c ≤ '9' then some (c.toNat - 48)
  else if 'a' ≤ c && c ≤ 'z' then some (c.toNat - 87)
  else if 'A' ≤ c && c ≤ 'Z' then some (c.toNat - 55)
  else none

/-- The fragment of Python's `int(s, base)` exercised here: `int` raises
`ValueError` (modelled as `none`) when the base is outside 2-36, when the
string is empty, or when a character is not a digit of the base. -/
def py_int (digits : List Char) (base : Nat) : Option Nat :=
  if base < 2 || 36 < base then none
  else if digits.isEmpty then none
  else
    digits.foldl
      (fun acc c =>
        match acc, pyDigitVal c with
        | some v, some d => if d < base then some (v * base + d) else none
        | _, _ => none)
      (some 0)

/-- `encode_token_id(*values)`: encoded pairs joined by `.`
(`entity_registry.py:43-44`). -/
def encode_token_id (values : List Nat) : List Char :=
  joinDot (values.map encode_pair)

/-- `decode_token_id(s)`: `tuple(int(p, 50) for p in s.split("."))`
(`entity_registry.py:45-46`); `none` models the `ValueError` that
`int(p, 50)` raises. -/
def decode_token_id (s : List Char) : Option (List Nat) :=
  (splitDot s).mapM (fun p => py_int p 50)

/-! ## Edit distance

Modelled from the spec: `hcp.physics.energy.edit_distance` is not under
`src/`.  Damerau-Levenshtein distance in its optimal-string-alignment
form: insertion, deletion, substitution and adjacent transposition each
cost 1 (spec section 4.6).  The recursion is driven by a fuel argument so
that the definition is structurally recursive; any fuel of at least
`xs.length + ys.length` computes the distance, since every recursive call
shortens the combined length by at least one. -/

def dlAux : Nat → List Char → List Char → Nat
  | 0, xs, ys => xs.length + ys.length
  | _ + 1, [], ys => ys.length
  | _ + 1, xs, [] => xs.length
  | fuel + 1, x :: xs, y :: ys =>
    let del := dlAux fuel xs (y :: ys) + 1
    let ins := dlAux fuel (x :: xs) ys + 1
    let sub := dlAux fuel xs ys + (if x = y then 0 else 1)
    let base := min (min del ins) sub
    match xs, ys with
    | x2 :: xs2, y2 :: ys2 =>
      if x = y2 && x2 = y then min base (dlAux fuel xs2 ys2 + 1) else base
    | _, _ => base

/-- `edit_distance(s1, s2)` (spec sections 4.6 and 8). -/
def edit_distance (a b : String) : Nat :=
  dlAux (a.toList.length + b.toList.length + 1) a.toList b.toList

/-! ## Span classifier

Modelled from the spec: `hcp.atomizer.byte_atomizer.ByteSpanClassifier`
is not under `src/`.  Each byte value maps to exactly one of four
categories (spec section 4.2). -/

inductive SpanType where
  | whitespace
  | word
  | punctuation
  | binary
deriving DecidableEq, Repr

/-- `ByteSpanClassifier.classify_byte` (spec section 4.2): whitespace for
tab, LF, CR and space; word for ASCII letters, digits and underscore;
punctuation for the remaining printable ASCII; binary for everything
else, in particular every byte at or above 128. -/
def classify_byte (b : Nat) : SpanType :=
  if b = 9 || b = 10 || b = 13 || b = 32 then .whitespace
  else if (65 ≤ b && b ≤ 90) || (97 ≤ b && b ≤ 122) || (48 ≤ b && b ≤ 57) || b = 95 then
    .word
  else if 33 ≤ b && b ≤ 126 then .punctuation
  else .binary

/-! ## Sequence energy

Modelled from the spec: `hcp.physics.energy.EnergyFunction` is not under
`src/`.  Each consecutive pair gets a low energy when it is a strong
known bond of the reference graph and the full `weak_bond_penalty` when
it is unknown; each token flagged unknown adds `unknown_penalty`
(spec section 4.6). -/

structure EnergyState where
  tokens : List TokenID
  total_energy : Rat
  bond_energies : List Rat
  unknown_count : Nat
deriving DecidableEq, Repr

/-- Average energy is total over bond count, 0 when there are no bonds
(spec section 3). -/
def EnergyState.average_energy (s : EnergyState) : Rat :=
  if s.bond_energies.length = 0 then 0
  else s.total_energy / (s.bond_energies.length : Rat)

structure EnergyFunction where
  knowledge_pbm : PairBondMap := PairBondMap.empty
  weak_bond_penalty : Rat := 1 / 2
  unknown_penalty : Rat := 1
deriving DecidableEq, Repr

/-- Per-bond energy: the weak-bond penalty scaled down by the bond's
recorded strength in the reference graph, so an unknown pair costs the
full penalty and a strongly reinforced pair costs close to 0. -/
def bond_energy (ef : EnergyFunction) (left right : TokenID) : Rat :=
  ef.weak_bond_penalty / (1 + (get_bond_count ef.knowledge_pbm left right : Rat))

/-- `EnergyFunction.sequence_energy` (spec section 4.6). -/
def sequence_energy (ef : EnergyFunction) (tokens : List TokenID)
    (unknown_tokens : List TokenID) : EnergyState :=
  let bes := (tokens.zip tokens.tail).map (fun p => bond_energy ef p.1 p.2)
  let uc := (tokens.filter (fun t => decide (t ∈ unknown_tokens))).length
  { tokens := tokens
    total_energy := bes.foldl (· + ·) 0 + (uc : Rat) * ef.unknown_penalty
    bond_energies := bes
    unknown_count := uc }

/-! ## Albedo (centrality)

Modelled from the spec: `hcp.physics.forces.albedo` is not under `src/`.
Per-token relevance score from normalized forward+backward degree
(spec sections 3 and 4.6). -/

structure AlbedoScore where
  token : TokenID
  score : Rat
  forward_connections : Nat
  backward_connections : Nat
deriving DecidableEq, Repr

/-- Centrality is the mean of the forward and backward connection counts
(spec section 3). -/
def AlbedoScore.centrality (s : AlbedoScore) : Rat :=
  ((s.forward_connections : Rat) + (s.backward_connections : Rat)) / 2

/-- `AlbedoCalculator.calculate`: a score per token of the graph, degree
normalized by the maximum degree; an empty graph yields an empty score
map. -/
def calculate_albedo (g : PairBondMap) : List (TokenID × AlbedoScore) :=
  let ts := pbm_tokens g
  let deg := fun t => (get_forward_bonds g t).length + (get_backward_bonds g t).length
  let maxDeg := ts.foldl (fun m t => max m (deg t)) 0
  ts.map (fun t =>
    (t, { token := t
          score := (deg t : Rat) / (maxDeg : Rat)
          forward_connections := (get_forward_bonds g t).length
          backward_connections := (get_backward_bonds g t).length }))

/-! ## Gravity clustering

Modelled from the spec: `hcp.physics.forces.gravity` is not under
`src/`.  Attraction between two tokens is the sum of their bidirectional
bond counts normalized by the graph's total bond mass; starting from
singleton clusters, the highest-attraction cluster pair above the
threshold is merged repeatedly (spec section 4.6). -/

structure Cluster where
  tokens : List TokenID
  mass : Rat
deriving DecidableEq, Repr

structure GravityField where
  clusters : List Cluster
  token_to_cluster : List (TokenID × Nat)
  total_mass : Rat
deriving DecidableEq, Repr

/-- `GravityCalculator.calculate_attraction` (spec section 4.6). -/
def calculate_attraction (g : PairBondMap) (t1 t2 : TokenID) : Rat :=
  ((get_bond_count g t1 t2 + get_bond_count g t2 t1 : Nat) : Rat) / (total_bonds g : Rat)

/-- Attraction between two clusters: the summed pairwise token
attraction. -/
def cluster_attraction (g : PairBondMap) (c1 c2 : Cluster) : Rat :=
  c1.tokens.foldl
    (fun acc t1 => c2.tokens.foldl (fun acc2 t2 => acc2 + calculate_attraction g t1 t2) acc)
    0

/-- The index pairs `(i, j)` with `i < j < n`. -/
def indexPairs (n : Nat) : List (Nat × Nat) :=
  ((List.range n).map
    (fun i => ((List.range n).filter (fun j => decide (i < j))).map (fun j => (i, j)))).flatten

/-- The highest-attraction cluster pair, with its attraction. -/
def bestMergePair (g : PairBondMap) (cs : List Cluster) : Option (Nat × Nat × Rat) :=
  (indexPairs cs.length).foldl
    (fun best p =>
      let a := cluster_attraction g (cs.getD p.1 ⟨[], 0⟩) (cs.getD p.2 ⟨[], 0⟩)
      match best with
      | none => some (p.1, p.2, a)
      | some (_, _, ba) => if ba < a then some (p.1, p.2, a) else best)
    none

/-- Merge cluster `j` into cluster `i`: union of token sets, sum of
masses (spec section 3). -/
def mergeClustersAt (cs : List Cluster) (i j : Nat) : List Cluster :=
  let ci := cs.getD i ⟨[], 0⟩
  let cj := cs.getD j ⟨[], 0⟩
  let merged : Cluster :=
    ⟨ci.tokens ++ cj.tokens.filter (fun t => decide (t ∉ ci.tokens)), ci.mass + cj.mass⟩
  cs.enum.filterMap
    (fun e => if e.1 = j then none else if e.1 = i then some merged else some e.2)

/-- One clustering round: merge the best pair if its attraction exceeds
the threshold, otherwise stop. -/
def gravity_step (g : PairBondMap) (threshold : Rat) (cs : List Cluster) :
    Option (List Cluster) :=
  match bestMergePair g cs with
  | some (i, j, a) => if threshold < a then some (mergeClustersAt cs i j) else none
  | none => none

/-- Iterate clustering rounds; each round removes one cluster, so the
initial cluster count bounds the rounds. -/
def gravity_loop (g : PairBondMap) (threshold : Rat) : Nat → List Cluster → List Cluster
  | 0, cs => cs
  | fuel + 1, cs =>
    match gravity_step g threshold cs with
    | some cs2 => gravity_loop g threshold fuel cs2
    | none => cs

/-- Mass of a singleton cluster: the summed bond counts touching the
token. -/
def token_mass (g : PairBondMap) (t : TokenID) : Rat :=
  (((get_forward_bonds g t).foldl (fun a p => a + p.2) 0 +
    (get_backward_bonds g t).foldl (fun a p => a + p.2) 0 : Nat) : Rat)

/-- `GravityCalculator.cluster` (spec section 4.6): an empty graph yields
a field with no clusters and total mass 0. -/
def cluster_pbm (g : PairBondMap) (threshold : Rat) : GravityField :=
  let init := (pbm_tokens g).map (fun t => (⟨[t], token_mass g t⟩ : Cluster))
  let final := gravity_loop g threshold init.length init
  { clusters := final
    token_to_cluster := (final.enum.map (fun e => e.2.tokens.map (fun t => (t, e.1)))).flatten
    total_mass := final.foldl (fun a c => a + c.mass) 0 }

/-! ## Activation retrieval

Modelled from the spec: `hcp.cognition.context` is not under `src/` (only
its callers in `work/hcp/cognition/` are).  Activation 1.0 is seeded at
each query token and spread along forward and backward bonds, scaled by
the bond's relative strength and a per-hop decay, combined by maximum;
results are the touched bonds with endpoint activation at or above
`min_activation`, in descending activation order, truncated to
`max_bonds` (spec section 4.5). -/

structure ActivatedBond where
  left : TokenID
  right : TokenID
  activation : Rat
  path_length : Nat
deriving DecidableEq, Repr

structure ContextResult where
  bonds : List ActivatedBond
deriving DecidableEq, Repr

/-- Current activation of a token, 0 if never activated. -/
def lookupAct (acts : List (TokenID × Rat)) (t : TokenID) : Rat :=
  match acts.find? (fun p => decide (p.1 = t)) with
  | some p => p.2
  | none => 0

/-- Record a token's activation. -/
def setAct : List (TokenID × Rat) → TokenID → Rat → List (TokenID × Rat)
  | [], t, v => [(t, v)]
  | p :: rest, t, v => if p.1 = t then (t, v) :: rest else p :: setAct rest t v

/-- Total outgoing count at a node. -/
def out_total (g : PairBondMap) (t : TokenID) : Nat :=
  (get_forward_bonds g t).foldl (fun a p => a + p.2) 0

/-- Total incoming count at a node. -/
def in_total (g : PairBondMap) (t : TokenID) : Nat :=
  (get_backward_bonds g t).foldl (fun a p => a + p.2) 0

/-- Per-hop decay factor of the activation spreading. -/
def decay_factor : Rat := 1 / 2

/-- Internal depth bound of the traversal (spec section 4.5). -/
def max_depth : Nat := 3

/-- Expand one frontier node: push activation to each forward and
backward neighbour, keeping the maximum contribution per node, recording
every touched bond, and queueing neighbours whose contribution stays at
or above the activation floor within the depth bound. -/
def processNode (g : PairBondMap) (minA : Rat) (t : TokenID) (a : Rat) (d : Nat)
    (st : List (TokenID × Rat) × List ActivatedBond × List (TokenID × Rat × Nat)) :
    List (TokenID × Rat) × List ActivatedBond × List (TokenID × Rat × Nat) :=
  let items :=
    (get_forward_bonds g t).map (fun p => (p.1, (p.2 : Rat) / (out_total g t : Rat))) ++
    (get_backward_bonds g t).map (fun p => (p.1, (p.2 : Rat) / (in_total g t : Rat)))
  items.foldl
    (fun st2 item =>
      let contrib := a * item.2 * decay_factor
      let newAct := max (lookupAct st2.1 item.1) contrib
      let acts2 := setAct st2.1 item.1 newAct
      let touched2 := st2.2.1 ++ [⟨t, item.1, newAct, d + 1⟩]
      let queue2 :=
        if minA ≤ contrib ∧ d + 1 < max_depth then st2.2.2 ++ [(item.1, contrib, d + 1)]
        else st2.2.2
      (acts2, touched2, queue2))
    st

/-- Fuel-driven worklist propagation. -/
def propagate (g : PairBondMap) (minA : Rat) :
    Nat → List (TokenID × Rat × Nat) → List (TokenID × Rat) → List ActivatedBond →
    List (TokenID × Rat) × List ActivatedBond
  | 0, _, acts, touched => (acts, touched)
  | _ + 1, [], acts, touched => (acts, touched)
  | fuel + 1, f :: rest, acts, touched =>
    let st := processNode g minA f.1 f.2.1 f.2.2 (acts, touched, [])
    propagate g minA fuel (rest ++ st.2.2) st.1 st.2.1

/-- Descending-activation order on activated bonds. -/
def actGE (a b : ActivatedBond) : Prop := b.activation ≤ a.activation

instance : DecidableRel actGE := fun a b => by unfold actGE; infer_instance

instance : IsTotal ActivatedBond actGE := ⟨fun a b => le_total b.activation a.activation⟩

instance : IsTrans ActivatedBond actGE := ⟨fun _ _ _ h1 h2 => le_trans h2 h1⟩

/-- Spread activation from the query tokens and return every touched
bond, rescored with its endpoint's final activation. -/
def context_candidates (g : PairBondMap) (query : List TokenID)
    (min_activation : Rat) : List ActivatedBond :=
  let acts0 := query.map (fun t => (t, (1 : Rat)))
  let frontier0 := query.map (fun t => (t, (1 : Rat), 0))
  let fuel := (total_bonds g + query.length + 1) * (max_depth + 1)
  let r := propagate g min_activation fuel frontier0 acts0 []
  r.2.map (fun ab => { ab with activation := lookupAct r.1 ab.right })

/-- `ContextRetriever.get_context` (spec section 4.5): the touched bonds
with endpoint activation at or above the floor, in descending activation
order, truncated to the bond budget. -/
def get_context (g : PairBondMap) (query : List TokenID) (max_bonds : Nat)
    (min_activation : Rat) : ContextResult :=
  ⟨(List.insertionSort actGE ((context_candidates g query min_activation).filter
      (fun ab => decide (min_activation ≤ ab.activation)))).take max_bonds⟩

/-! ## Simulation results

Modelled from the spec: `hcp.physics.engine.SimulationResult` is not
under `src/`; the correction pipeline reports energy before and after
(spec section 4.6), and the improvement accessor's behaviour is fixed by
`test_physics.py::TestSimulationResult`. -/

structure SimulationResult where
  original_text : String
  corrected_text : String
  corrections : List (String × String)
  energy_before : Rat
  energy_after : Rat
  iterations : Nat
  stable : Bool
deriving DecidableEq, Repr

/-- `SimulationResult.improvement`: relative energy drop, 0 when the
initial energy is 0. -/
def SimulationResult.improvement (r : SimulationResult) : Rat :=
  if r.energy_before = 0 then 0
  else (r.energy_before - r.energy_after) / r.energy_before

/-! ## Helper lemmas -/

theorem utf8Step_encodeChar (n : Nat) (h : ValidScalar n) (bs : List Nat) :
    utf8Step (utf8EncodeChar n ++ bs) = some (n, bs) := by
  unfold ValidScalar at h
  by_cases h1 : n < 128
  · have he : utf8EncodeChar n = [n] := by simp [utf8EncodeChar, h1]
    rw [he]
    simp only [List.cons_append, List.nil_append, utf8Step]
    rw [if_pos h1]
  · by_cases h2 : n < 2048
    · have he : utf8EncodeChar n = [192 + n / 64, 128 + n % 64] := by
        simp [utf8EncodeChar, h1, h2]
      have e1 : ¬(192 + n / 64 < 128) := by omega
      have e2 : 192 + n / 64 < 224 := by omega
      have e3 : utf8Cond2 (192 + n / 64) (128 + n % 64) = true := by
        simp only [utf8Cond2, isCont, Bool.and_eq_true, decide_eq_true_eq]
        omega
      have e4 : utf8Val2 (192 + n / 64) (128 + n % 64) = n := by
        simp only [utf8Val2]
        omega
      rw [he]
      simp only [List.cons_append, List.nil_append, utf8Step]
      rw [if_neg e1, if_pos e2, if_pos e3, e4]
    · by_cases h3 : n < 65536
      · have he : utf8EncodeChar n =
            [224 + n / 4096, 128 + n / 64 % 64, 128 + n % 64] := by
          simp [utf8EncodeChar, h1, h2, h3]
        have e1 : ¬(224 + n / 4096 < 128) := by omega
        have e2 : ¬(224 + n / 4096 < 224) := by omega
        have e3 : 224 + n / 4096 < 240 := by omega
        have e4 : utf8Val3 (224 + n / 4096) (128 + n / 64 % 64) (128 + n % 64) = n := by
          simp only [utf8Val3]
          omega
        have e5 : utf8Cond3 (224 + n / 4096) (128 + n / 64 % 64) (128 + n % 64) = true := by
          simp only [utf8Cond3, isCont, e4, Bool.and_eq_true, Bool.not_eq_true',
            Bool.and_eq_false_iff, decide_eq_true_eq, decide_eq_false_iff_not]
          omega
        rw [he]
        simp only [List.cons_append, List.nil_append, utf8Step]
        rw [if_neg e1, if_neg e2, if_pos e3, if_pos e5, e4]
      · have he : utf8EncodeChar n =
            [240 + n / 262144, 128 + n / 4096 % 64, 128 + n / 64 % 64, 128 + n % 64] := by
          simp [utf8EncodeChar, h1, h2, h3]
        have e1 : ¬(240 + n / 262144 < 128) := by omega
        have e2 : ¬(240 + n / 262144 < 224) := by omega
        have e3 : ¬(240 + n / 262144 < 240) := by omega
        have e4 : utf8Val4 (240 + n / 262144) (128 + n / 4096 % 64) (128 + n / 64 % 64)
            (128 + n % 64) = n := by
          simp only [utf8Val4]
          omega
        have e5 : utf8Cond4 (240 + n / 262144) (128 + n / 4096 % 64) (128 + n / 64 % 64)
            (128 + n % 64) = true := by
          simp only [utf8Cond4, isCont, e4, Bool.and_eq_true, decide_eq_true_eq]
          omega
        rw [he]
        simp only [List.cons_append, List.nil_append, utf8Step]
        rw [if_neg e1, if_neg e2, if_neg e3, if_pos e5, e4]

theorem utf8EncodeChar_length_pos (n : Nat) : 0 < (utf8EncodeChar n).length := by
  unfold utf8EncodeChar
  split_ifs <;> simp

theorem utf8DecodeAux_encode (T : List Nat) (h : ∀ n ∈ T, ValidScalar n) :
    ∀ fuel, (utf8Encode T).length ≤ fuel → utf8DecodeAux fuel (utf8Encode T) = some T := by
  induction T with
  | nil =>
    intro fuel _
    rw [utf8Encode]
    cases fuel <;> rfl
  | cons n rest ih =>
    intro fuel hf
    have h1 : ValidScalar n := h n (by simp)
    have h2 : ∀ m ∈ rest, ValidScalar m := fun m hm => h m (by simp [hm])
    rw [utf8Encode] at hf ⊢
    rw [List.length_append] at hf
    have hlen : 0 < (utf8EncodeChar n).length := utf8EncodeChar_length_pos n
    obtain ⟨f, rfl⟩ : ∃ f, fuel = f + 1 := by
      cases fuel
      · exact absurd hf (by omega)
      · exact ⟨_, rfl⟩
    obtain ⟨b, tl, hcons⟩ : ∃ b tl, utf8EncodeChar n ++ utf8Encode rest = b :: tl := by
      cases hE : utf8EncodeChar n with
      | nil => rw [hE] at hlen; exact absurd hlen (by simp)
      | cons b tl2 => exact ⟨b, tl2 ++ utf8Encode rest, by simp [hE]⟩
    rw [hcons, utf8DecodeAux, ← hcons, utf8Step_encodeChar n h1]
    have hf2 : (utf8Encode rest).length ≤ f := by omega
    dsimp only
    rw [ih h2 f hf2]
    rfl

theorem utf8Decode_utf8Encode (T : List Nat) (h : ∀ n ∈ T, ValidScalar n) :
    utf8Decode (utf8Encode T) = some T :=
  utf8DecodeAux_encode T h (utf8Encode T).length le_rfl

theorem tokens_to_bytes_map_byte (bs : List Nat) :
    tokens_to_bytes (bs.map TokenID.byte) = Except.ok bs := by
  induction bs with
  | nil => rfl
  | cons b rest ih => simp [tokens_to_bytes, ih, Except.map]

theorem foldl_add_bond_sequences (ps : List (TokenID × TokenID)) (g : PairBondMap) :
    (ps.foldl (fun acc p => add_bond acc p.1 p.2) g).sequences = g.sequences := by
  induction ps generalizing g with
  | nil => rfl
  | cons p rest ih => rw [List.foldl_cons, ih]; rfl

theorem create_pbm_sequences (T : List Nat) :
    (create_pbm_from_text T).sequences = [(utf8Encode T).map TokenID.byte] := by
  simp only [create_pbm_from_text, to_pbm, add_sequence, derive_bonds]
  rw [foldl_add_bond_sequences]
  rfl

/-- Sum of the counts of an association list. -/
def bondSum (l : List ((TokenID × TokenID) × Nat)) : Nat :=
  l.foldl (fun acc e => acc + e.2) 0

theorem foldl_add_shift (l : List ((TokenID × TokenID) × Nat)) (a : Nat) :
    l.foldl (fun acc e => acc + e.2) a = a + l.foldl (fun acc e => acc + e.2) 0 := by
  induction l generalizing a with
  | nil => simp
  | cons e rest ih =>
    rw [List.foldl_cons, List.foldl_cons, ih (a + e.2), ih (0 + e.2)]
    omega

theorem bondSum_cons (e : (TokenID × TokenID) × Nat) (l : List ((TokenID × TokenID) × Nat)) :
    bondSum (e :: l) = e.2 + bondSum l := by
  unfold bondSum
  rw [List.foldl_cons, foldl_add_shift]
  omega

theorem bumpPair_sum (p : TokenID × TokenID) (l : List ((TokenID × TokenID) × Nat)) :
    bondSum (bumpPair p l) = bondSum l + 1 := by
  induction l with
  | nil => rfl
  | cons e rest ih =>
    obtain ⟨q, c⟩ := e
    rw [bumpPair]
    by_cases hqp : q = p
    · rw [if_pos hqp, bondSum_cons, bondSum_cons]
      omega
    · rw [if_neg hqp, bondSum_cons, bondSum_cons, ih]
      omega

theorem total_bonds_add_bond (g : PairBondMap) (l r : TokenID) :
    total_bonds (add_bond g l r) = total_bonds g + 1 :=
  bumpPair_sum (l, r) g.bonds

theorem foldl_add_bond_total (ps : List (TokenID × TokenID)) (g : PairBondMap) :
    total_bonds (ps.foldl (fun acc p => add_bond acc p.1 p.2) g) =
      total_bonds g + ps.length := by
  induction ps generalizing g with
  | nil => simp
  | cons p rest ih =>
    rw [List.foldl_cons, ih, total_bonds_add_bond, List.length_cons]
    omega

/-- Total count recorded for key `q` in an association list. -/
def listPairCount (l : List ((TokenID × TokenID) × Nat)) (q : TokenID × TokenID) : Nat :=
  bondSum (l.filter (fun e => e.1 = q))

theorem listPairCount_cons (e : (TokenID × TokenID) × Nat)
    (l : List ((TokenID × TokenID) × Nat)) (q : TokenID × TokenID) :
    listPairCount (e :: l) q = (if e.1 = q then e.2 else 0) + listPairCount l q := by
  unfold listPairCount
  simp only [List.filter_cons]
  by_cases h : e.1 = q
  · simp [h, bondSum_cons]
  · simp [h]

theorem addPairCount_count (p : TokenID × TokenID) (c : Nat)
    (l : List ((TokenID × TokenID) × Nat)) (q : TokenID × TokenID) :
    listPairCount (addPairCount p c l) q =
      listPairCount l q + (if p = q then c else 0) := by
  induction l with
  | nil =>
    rw [addPairCount, listPairCount_cons]
    by_cases h : p = q
    · simp [h, listPairCount, bondSum]
    · simp [h, listPairCount, bondSum]
  | cons e rest ih =>
    obtain ⟨r, d⟩ := e
    rw [addPairCount]
    by_cases hrp : r = p
    · rw [if_pos hrp, listPairCount_cons, listPairCount_cons]
      subst hrp
      split_ifs <;> omega
    · rw [if_neg hrp, listPairCount_cons, listPairCount_cons, ih]
      split_ifs <;> omega

theorem addPairCount_sum (p : TokenID × TokenID) (c : Nat)
    (l : List ((TokenID × TokenID) × Nat)) :
    bondSum (addPairCount p c l) = bondSum l + c := by
  induction l with
  | nil => rw [addPairCount, bondSum_cons]; simp [bondSum]
  | cons e rest ih =>
    obtain ⟨r, d⟩ := e
    rw [addPairCount]
    by_cases hrp : r = p
    · rw [if_pos hrp, bondSum_cons, bondSum_cons]
      omega
    · rw [if_neg hrp, bondSum_cons, bondSum_cons, ih]
      omega

theorem foldl_addPairCount_count (es : List ((TokenID × TokenID) × Nat))
    (acc : List ((TokenID × TokenID) × Nat)) (q : TokenID × TokenID) :
    listPairCount (es.foldl (fun a e => addPairCount e.1 e.2 a) acc) q =
      listPairCount acc q + listPairCount es q := by
  induction es generalizing acc with
  | nil => simp [listPairCount, bondSum]
  | cons e rest ih =>
    rw [List.foldl_cons, ih, addPairCount_count, listPairCount_cons]
    split_ifs <;> omega

theorem foldl_addPairCount_sum (es : List ((TokenID × TokenID) × Nat))
    (acc : List ((TokenID × TokenID) × Nat)) :
    bondSum (es.foldl (fun a e => addPairCount e.1 e.2 a) acc) =
      bondSum acc + bondSum es := by
  induction es generalizing acc with
  | nil => simp [bondSum]
  | cons e rest ih =>
    rw [List.foldl_cons, ih, addPairCount_sum, bondSum_cons]
    omega

theorem merge_count (g1 g2 : PairBondMap) (q : TokenID × TokenID) :
    listPairCount (merge g1 g2).bonds q =
      listPairCount g1.bonds q + listPairCount g2.bonds q :=
  foldl_addPairCount_count g2.bonds g1.bonds q

theorem merge_total (g1 g2 : PairBondMap) :
    total_bonds (merge g1 g2) = total_bonds g1 + total_bonds g2 :=
  foldl_addPairCount_sum g2.bonds g1.bonds

/-! ## Claim theorems -/

/-- C1: for every input text `T` (modelled as its list of Unicode scalar
values, covering the empty string, repeated patterns, punctuation and
multi-byte characters), building a bond graph from `T` and then
reconstructing its string form yields `T` exactly:
`pbm_to_string (create_pbm_from_text T) = some T`.  The single recorded
sequence is returned verbatim by the reconstructor's "sequence"
method. -/
theorem pbm_text_roundtrip (T : List Nat) (h : ∀ n ∈ T, ValidScalar n) :
    pbm_to_string (create_pbm_from_text T) = some T := by
  have hseq := create_pbm_sequences T
  unfold pbm_to_string pbm_to_bytes reconstruct
  rw [hseq]
  dsimp only
  rw [tokens_to_bytes_map_byte]
  exact utf8Decode_utf8Encode T h

/-- Witness for C1, at the text "Hi" followed by the waving-hand emoji
(U+1F44B), whose UTF-8 form is multi-byte. -/
theorem pbm_text_roundtrip_witness :
    (∀ n ∈ ([72, 105, 128075] : List Nat), ValidScalar n) ∧
      pbm_to_string (create_pbm_from_text [72, 105, 128075]) =
        some [72, 105, 128075] :=
  ⟨by decide, pbm_text_roundtrip [72, 105, 128075] (by decide)⟩

/-- C3: building a bond graph from a byte input derives one bond per
consecutive atom pair, so `N` atoms yield `total_bonds = N - 1`; in
particular `to_pbm` of the bytes of "ABAB" has 2 unique bonds and 3 total
bonds. -/
theorem to_pbm_bond_counts :
    (∀ data : List Nat, 1 ≤ data.length → total_bonds (to_pbm data) = data.length - 1) ∧
      unique_bonds (to_pbm [65, 66, 65, 66]) = 2 ∧
      total_bonds (to_pbm [65, 66, 65, 66]) = 3 := by
  refine ⟨?_, by decide, by decide⟩
  intro data h
  have h0 : total_bonds (to_pbm data) =
      total_bonds (derive_bonds PairBondMap.empty (data.map TokenID.byte)) := rfl
  rw [h0]
  unfold derive_bonds
  rw [foldl_add_bond_total]
  have hz : ((data.map TokenID.byte).zip (data.map TokenID.byte).tail).length =
      data.length - 1 := by
    rw [List.length_zip, List.length_tail, List.length_map]
    omega
  rw [hz]
  have he : total_bonds PairBondMap.empty = 0 := rfl
  omega

/-- Witness for C3 at the two-byte input "AB". -/
theorem to_pbm_bond_counts_witness :
    1 ≤ ([65, 66] : List Nat).length ∧
      total_bonds (to_pbm [65, 66]) = ([65, 66] : List Nat).length - 1 :=
  ⟨by decide, to_pbm_bond_counts.1 [65, 66] (by decide)⟩

/-- C4: graph merge is commutative on counts — the merged `total_bonds`
is the same in either order, every pair's merged count is the sum of its
counts in the two graphs regardless of order, while the merged sequence
store places the merged-into graph's sequences first, so sequence-store
order is not commutative. -/
theorem merge_commutative_on_counts (g1 g2 : PairBondMap) :
    total_bonds (merge g1 g2) = total_bonds (merge g2 g1) ∧
    (∀ l r : TokenID,
      get_bond_count (merge g1 g2) l r = get_bond_count g1 l r + get_bond_count g2 l r ∧
      get_bond_count (merge g2 g1) l r = get_bond_count g1 l r + get_bond_count g2 l r) ∧
    (merge g1 g2).sequences = g1.sequences ++ g2.sequences := by
  refine ⟨?_, ?_, rfl⟩
  · rw [merge_total, merge_total]
    omega
  · intro l r
    exact ⟨merge_count g1 g2 (l, r),
      (merge_count g2 g1 (l, r)).trans (Nat.add_comm _ _)⟩

/-- C2: evaluation of the compound-identifier codec fallback of
`entity_registry.py:39-46` at the field tuple `(0,)`: `encode_token_id`
yields the two-symbol field "AA", but `decode_token_id` fails on it,
because `int(p, 50)` raises `ValueError` — Python's `int` accepts only
bases 2-36 — so decoding never inverts encoding for any tuple. -/
theorem decode_encode_token_id_fails :
    encode_token_id [0] = [Char.ofNat 65, Char.ofNat 65] ∧
      decode_token_id (encode_token_id [0]) = none := by
  exact ⟨by decide, by decide⟩

/-- C5: `edit_distance` computes Damerau-Levenshtein distance with unit
costs for insertion, deletion, substitution and adjacent transposition:
the reference evaluations hold, and a single adjacent transposition has
distance exactly 1. -/
theorem edit_distance_values :
    edit_distance (r"hello") (r"hello") = 0 ∧
    edit_distance (r"hello") (r"") = 5 ∧
    edit_distance (r"cat") (r"bat") = 1 ∧
    edit_distance (r"kitten") (r"sitting") = 3 ∧
    edit_distance (r"teh") (r"the") = 1 := by
  exact ⟨by decide, by decide, by decide, by decide, by decide⟩

set_option maxRecDepth 8192 in
/-- C6: `classify_byte` maps every byte value 0-255 to exactly one of
the four span categories: whitespace for tab, LF, CR and space; word for
ASCII letters, digits and underscore; punctuation for the remaining
printable ASCII; binary for every byte at or above 128. -/
theorem classify_byte_partition :
    ∀ b : Nat, b < 256 →
      ((b = 9 ∨ b = 10 ∨ b = 13 ∨ b = 32) → classify_byte b = SpanType.whitespace) ∧
      (((65 ≤ b ∧ b ≤ 90) ∨ (97 ≤ b ∧ b ≤ 122) ∨ (48 ≤ b ∧ b ≤ 57) ∨ b = 95) →
        classify_byte b = SpanType.word) ∧
      ((33 ≤ b ∧ b ≤ 126 ∧
          ¬((65 ≤ b ∧ b ≤ 90) ∨ (97 ≤ b ∧ b ≤ 122) ∨ (48 ≤ b ∧ b ≤ 57) ∨ b = 95)) →
        classify_byte b = SpanType.punctuation) ∧
      (128 ≤ b → classify_byte b = SpanType.binary) := by
  decide

/-- Witness for C6 at the byte value 200, a binary byte. -/
theorem classify_byte_partition_witness :
    200 < 256 ∧ 128 ≤ 200 ∧ classify_byte 200 = SpanType.binary :=
  ⟨by decide, by decide, (classify_byte_partition 200 (by decide)).2.2.2 (by decide)⟩

/-- C7: on well-formed empty input, retrieval analytics degrade to
neutral results instead of failing: clustering the empty graph yields a
gravity field with no clusters and total mass 0, albedo calculation on
the empty graph yields an empty score map, and sequence energy of an
empty token list is a state with total energy 0 and an empty bond-energy
list. -/
theorem empty_input_neutral :
    (cluster_pbm PairBondMap.empty (1 / 100)).clusters = [] ∧
    (cluster_pbm PairBondMap.empty (1 / 100)).total_mass = 0 ∧
    calculate_albedo PairBondMap.empty = [] ∧
    (sequence_energy {} [] []).total_energy = 0 ∧
    (sequence_energy {} [] []).bond_energies = [] := by
  refine ⟨by decide, by decide, by decide, ?_, by simp [sequence_energy]⟩
  simp [sequence_energy]

theorem tokens_to_bytes_ok (ts : List TokenID) (h : ∀ t ∈ ts, t.is_byte = true) :
    tokens_to_bytes ts = Except.ok (ts.map TokenID.value) := by
  induction ts with
  | nil => rfl
  | cons t rest ih =>
    cases t with
    | byte n =>
      simp only [tokens_to_bytes]
      rw [ih (fun u hu => h u (by simp [hu]))]
      rfl
    | nsm n => exact absurd (h (TokenID.nsm n) (by simp)) (by simp [TokenID.is_byte])

theorem tokens_to_bytes_error_iff (ts : List TokenID) :
    tokens_to_bytes ts = Except.error HcpError.nonByteToken ↔
      ∃ t ∈ ts, t.is_byte = false := by
  induction ts with
  | nil => simp [tokens_to_bytes]
  | cons t rest ih =>
    cases t with
    | byte n =>
      simp only [tokens_to_bytes]
      constructor
      · intro hmap
        cases hr : tokens_to_bytes rest with
        | error e =>
          rw [hr] at hmap
          simp only [Except.map] at hmap
          cases hmap
          obtain ⟨u, hu, hb⟩ := ih.1 hr
          exact ⟨u, by simp [hu], hb⟩
        | ok v =>
          rw [hr] at hmap
          simp [Except.map] at hmap
      · rintro ⟨u, hu, hb⟩
        rcases List.mem_cons.1 hu with h1 | h1
        · rw [h1] at hb
          simp [TokenID.is_byte] at hb
        · rw [ih.2 ⟨u, h1, hb⟩]
          rfl
    | nsm n =>
      simp only [tokens_to_bytes]
      constructor
      · intro _
        exact ⟨TokenID.nsm n, by simp, rfl⟩
      · intro _
        trivial

/-- C8: rendering a token sequence as bytes fails with the `NonByteToken`
error condition if and only if the sequence contains a non-byte
(abstract) token; when every token is a byte token it returns the
concatenation of their byte values. -/
theorem to_bytes_spec (ts : List TokenID) :
    (tokens_to_bytes ts = Except.error HcpError.nonByteToken ↔
      ∃ t ∈ ts, t.is_byte = false) ∧
    ((∀ t ∈ ts, t.is_byte = true) →
      tokens_to_bytes ts = Except.ok (ts.map TokenID.value)) :=
  ⟨tokens_to_bytes_error_iff ts, tokens_to_bytes_ok ts⟩

/-- Witness for C8 at the all-byte token sequence of "Hi". -/
theorem to_bytes_spec_witness :
    (∀ t ∈ [TokenID.byte 72, TokenID.byte 105], t.is_byte = true) ∧
      tokens_to_bytes [TokenID.byte 72, TokenID.byte 105] = Except.ok [72, 105] :=
  ⟨by decide, (to_bytes_spec [TokenID.byte 72, TokenID.byte 105]).2 (by decide)⟩

/-- C9: for every bond graph, query token list, bond budget and
activation floor, `get_context` returns at most `max_bonds` activated
bonds, every returned bond has activation at or above `min_activation`,
and the bonds are ordered by descending activation. -/
theorem get_context_budget (g : PairBondMap) (q : List TokenID) (mb : Nat) (ma : Rat) :
    (get_context g q mb ma).bonds.length ≤ mb ∧
    (get_context g q mb ma).bonds.all (fun ab => decide (ma ≤ ab.activation)) = true ∧
    (get_context g q mb ma).bonds.Pairwise actGE := by
  refine ⟨List.length_take_le mb _, ?_, ?_⟩
  · rw [List.all_eq_true]
    intro ab hab
    have h1 := List.mem_of_mem_take hab
    have h2 := (List.mem_insertionSort actGE).1 h1
    exact (List.mem_filter.mp h2).2
  · exact List.Pairwise.sublist (List.take_sublist mb _)
      (List.sorted_insertionSort actGE _)

/-- C10: `SimulationResult.improvement` equals
`(energy_before - energy_after) / energy_before` whenever `energy_before`
is nonzero, and equals 0 when `energy_before` is 0. -/
theorem improvement_spec (r : SimulationResult) :
    (r.energy_before ≠ 0 →
      r.improvement = (r.energy_before - r.energy_after) / r.energy_before) ∧
    (r.energy_before = 0 → r.improvement = 0) := by
  constructor
  · intro h
    unfold SimulationResult.improvement
    rw [if_neg h]
  · intro h
    unfold SimulationResult.improvement
    rw [if_pos h]

/-- Witness for C10 at energy 10 before and 5 after, an improvement of
one half. -/
theorem improvement_spec_witness :
    ((10 : Rat) ≠ 0) ∧
      SimulationResult.improvement ⟨r"test", r"test", [], 10, 5, 1, true⟩ =
        ((10 : Rat) - 5) / 10 :=
  ⟨by norm_num, (improvement_spec ⟨r"test", r"test", [], 10, 5, 1, true⟩).1 (by norm_num)⟩
